import Mathlib

/-!
Shallow embedding of the embedding subsystem of DFKI-SignLanguage/video-mammoth
(file mammoth/mammoth/modules/embeddings.py), together with theorems settling
the specification claims.

Tensors are modelled as lists of rows (`List (List K)`) over an abstract
linearly ordered field `K`; the transcendental float functions used by the
source (`math.sqrt`, `torch.sin`, `torch.cos`, `torch.exp`, `math.log`) are
abstracted into a `RealOps` record, so every definition stays executable and
theorems quantify over the interpretation of those functions.  Randomized
initialization (of `nn.Embedding` weights and of the `nn.Linear` inside the
`mlp` merge) is supplied by an explicit generator argument.  `nn.Dropout` is
modelled as the identity (its evaluation-mode semantics).
-/

namespace Mammoth

/-- Distinct failure modes of the embedding subsystem, mirroring the distinct
exceptions raised by the source: `ValueError` for an odd positional-encoding
width, `ValueError` for a non-positive `feat_vec_exponent`, `ValueError` for a
channel/padding-index count mismatch, the `RuntimeError` raised by
`torch.zeros` on a negative dimension in `create_embeddingless`, the
`SequenceTooLongError` of `PositionalEncoding.forward`, the `Exception` raised
by `PluggableEmbeddings._active_embeddings` before activation, and the
`AssertionError` of `PluggableEmbeddings.activate` on an unknown key. -/
inductive EmbError where
  | oddDim
  | nonPositiveExponent
  | featPadMismatch
  | negativeDim
  | sequenceTooLong
  | notActivated
  | keyNotFound
deriving DecidableEq, Repr

/-- One embedding lookup table (`nn.Embedding`): a matrix of rows together
with the `requires_grad` flag of its weight parameter. -/
structure Table (K : Type) where
  rows : List (List K)
  requiresGrad : Bool
deriving DecidableEq, Repr

/-- Interpretation of the float transcendental functions used by the source. -/
structure RealOps (K : Type) where
  sqrt : K → K
  sin : K → K
  cos : K → K
  exp : K → K
  log : K → K

/-- Trivial interpretation over the rationals, used to instantiate theorems on
concrete inputs. -/
def ratOps : RealOps ℚ :=
  { sqrt := id, sin := id, cos := id, exp := id, log := id }

/-- Largest `n` with `n ^ den ≤ v ^ num`: the floor of the real number
`v ^ (num / den)` for `den > 0`.  The search bound `v ^ ⌈num / den⌉` is
sufficient because `n ^ den ≤ v ^ num` forces
`n ≤ v ^ (num / den) ≤ v ^ ⌈num / den⌉`. -/
def ratPowFloor (v num den : ℕ) : ℕ :=
  let target := v ^ num
  let bound := v ^ ((num + den - 1) / den)
  ((List.range (bound + 1)).filter (fun n => n ^ den ≤ target)).foldr Nat.max 0

/-- Python `int(v ** e)` for a rational exponent `e = e.num / e.den`: the
value `v ** e` truncated toward zero (for `e > 0` this is the floor). -/
def intPow (v : ℕ) (e : ℚ) : ℕ :=
  ratPowFloor v e.num.toNat e.den

/-- The claim's width rule `round(v ^ e)` stated arithmetically: `w` is a
nearest integer to `v ^ (num / den)` exactly when
`w - 1/2 ≤ v ^ (num / den) ≤ w + 1/2`, i.e. (clearing denominators, with `ℕ`
subtraction making the lower bound vacuous at `w = 0`)
`(2w - 1) ^ den ≤ 2 ^ den * v ^ num` and `2 ^ den * v ^ num ≤ (2w + 1) ^ den`. -/
def isNearestTo (w v num den : ℕ) : Prop :=
  (2 * w - 1) ^ den ≤ 2 ^ den * v ^ num ∧ 2 ^ den * v ^ num ≤ (2 * w + 1) ^ den

instance (w v num den : ℕ) : Decidable (isNearestTo w v num den) := by
  unfold isNearestTo; infer_instance

/-- Model of `create_embeddingless` (embeddings.py, lines 157-163): build the
`vocab × vocab` one-hot matrix, pad each row with `dim - vocab` zero columns,
zero out the `padding_idx` row, and mark the table non-trainable
(`requires_grad=False`).  `torch.zeros((vocab, dim - vocab))` raises a
`RuntimeError` when `dim - vocab` is negative, which makes `dim < vocab` a
construction-time failure. -/
def create_embeddingless (K : Type) [LinearOrderedField K] (vocab dim padding_idx : ℕ) :
    Except EmbError (Table K) :=
  if dim < vocab then
    .error .negativeDim
  else
    let one_hot_embed : List (List K) :=
      (List.range vocab).map
        (fun i =>
          ((List.range vocab).map (fun j => if j = i then (1 : K) else 0)) ++
            List.replicate (dim - vocab) 0)
    .ok { rows := one_hot_embed.set padding_idx (List.replicate dim 0),
          requiresGrad := false }

/-- Model of the `PositionalEncoding` module state: the precomputed buffer
`pe` (of `max_len` rows of width `dim`) and the width `dim`. -/
structure PositionalEncoding (K : Type) where
  pe : List (List K)
  dim : ℕ
deriving Repr, DecidableEq

/-- The factor `exp(-(j) * log(10000) / dim)` applied to position `p` for the
even coordinate `j` (source line 35: `div_term`). -/
def divTerm {K : Type} [LinearOrderedField K] (ops : RealOps K) (dim j : ℕ) : K :=
  ops.exp (-(j : K) * ops.log 10000 / (dim : K))

/-- Entry of the sinusoidal table at position `pos`, coordinate `j`:
`sin(pos * div_term)` on even coordinates and `cos(pos * div_term)` on odd
coordinates (source lines 36-37). -/
def peEntry {K : Type} [LinearOrderedField K] (ops : RealOps K) (dim pos j : ℕ) : K :=
  if j % 2 = 0 then ops.sin ((pos : K) * divTerm ops dim j)
  else ops.cos ((pos : K) * divTerm ops dim (j - 1))

/-- The precomputed positional-encoding buffer: `max_len` rows of width `dim`. -/
def peTable {K : Type} [LinearOrderedField K] (ops : RealOps K) (dim max_len : ℕ) :
    List (List K) :=
  (List.range max_len).map (fun pos => (List.range dim).map (fun j => peEntry ops dim pos j))

/-- Model of `PositionalEncoding.__init__`: an odd `dim` raises `ValueError`;
otherwise the sinusoidal buffer is precomputed. -/
def mkPositionalEncoding {K : Type} [LinearOrderedField K] (ops : RealOps K)
    (dim : ℕ) (max_len : ℕ := 5000) : Except EmbError (PositionalEncoding K) :=
  if dim % 2 ≠ 0 then .error .oddDim
  else .ok { pe := peTable ops dim max_len, dim := dim }

/-- Model of `PositionalEncoding.forward` (source lines 44-63): scale the
input by `sqrt(dim)`, fail with `SequenceTooLongError` when
`step + len(emb)` exceeds the number of precomputed rows, otherwise add the
rows `[step, step + len(emb))` of the buffer.  The trailing `nn.Dropout` is
the identity in evaluation mode and is modelled as such. -/
def PositionalEncoding.forward {K : Type} [LinearOrderedField K] (ops : RealOps K)
    (p : PositionalEncoding K) (emb : List (List K)) (step : Option ℕ) :
    Except EmbError (List (List K)) :=
  let scaled := emb.map (fun row => row.map (fun x => x * ops.sqrt (p.dim : K)))
  let s := step.getD 0
  if p.pe.length < s + emb.length then
    .error .sequenceTooLong
  else
    .ok (scaled.zipWith (fun a b => a.zipWith (· + ·) b) ((p.pe.drop s).take emb.length))

/-- The constructor arguments of `Embeddings.__init__` (source lines 107-121),
with the float `feat_vec_exponent` idealized as a rational and the integer
`feat_vec_size` kept signed (its default is `-1`). -/
structure EmbConfig where
  word_vec_size : ℕ
  word_vocab_size : ℕ
  word_padding_idx : ℕ
  position_encoding : Bool := false
  feat_merge : String := "concat"
  feat_vec_exponent : ℚ := 7/10
  feat_vec_size : ℤ := -1
  feat_padding_idx : List ℕ := []
  feat_vocab_sizes : List ℕ := []
  dropout : ℚ := 0
  freeze_word_vecs : Bool := false
  enable_embeddingless : Bool := false
deriving DecidableEq, Repr

/-- Model of `Embeddings._validate_args` (source lines 199-226).  The `sum`
branch and the positive-`feat_vec_size` branch only emit warnings;
otherwise a non-positive `feat_vec_exponent` raises `ValueError`; finally a
mismatch between the channel count and the padding-index count raises
`ValueError`. -/
def validate_args (cfg : EmbConfig) : Except EmbError Unit :=
  let checkPads : Except EmbError Unit :=
    if cfg.feat_vocab_sizes.length = cfg.feat_padding_idx.length then .ok ()
    else .error .featPadMismatch
  if cfg.feat_merge = "sum" then
    checkPads
  else if 0 < cfg.feat_vec_size then
    checkPads
  else if cfg.feat_vec_exponent ≤ 0 then
    .error .nonPositiveExponent
  else
    checkPads

/-- The per-feature embedding widths computed in `Embeddings.__init__`
(source lines 137-142): `word_vec_size` under `sum` merge, `feat_vec_size`
when that parameter is positive, otherwise `int(vocab ** feat_vec_exponent)`. -/
def featDims (cfg : EmbConfig) : List ℕ :=
  if cfg.feat_merge = "sum" then
    cfg.feat_vocab_sizes.map (fun _ => cfg.word_vec_size)
  else if 0 < cfg.feat_vec_size then
    cfg.feat_vocab_sizes.map (fun _ => cfg.feat_vec_size.toNat)
  else
    cfg.feat_vocab_sizes.map (fun vocab => intPow vocab cfg.feat_vec_exponent)

/-- Model of a constructed `Embeddings` module: the per-channel lookup tables
(word first), the per-channel widths, the published `embedding_size`, the
optional `mlp` merge stage (its `nn.Linear` weight matrix and bias), the
optional positional-encoding stage, and the configuration data used by
`forward`. -/
structure Embeddings (K : Type) where
  word_vec_size : ℕ
  word_padding_idx : ℕ
  feat_merge : String
  luts : List (Table K)
  emb_dims : List ℕ
  embedding_size : ℕ
  mlp : Option (List (List K) × List K)
  pe : Option (PositionalEncoding K)
deriving Repr, DecidableEq

/-- A trainable `nn.Embedding(vocab, dim, padding_idx=pad)`: rows supplied by
the random initializer, the `padding_idx` row reset to zeros, and
`requires_grad=True`. -/
def mkTrainableTable {K : Type} [LinearOrderedField K]
    (init : List (List K)) (dim pad : ℕ) : Table K :=
  { rows := init.set pad (List.replicate dim 0), requiresGrad := true }

/-- The per-channel `(vocab, dim, pad)` parameter triples of
`Embeddings.__init__` (source lines 131-149): the word channel followed by
the feature channels. -/
def embParams (cfg : EmbConfig) : List (ℕ × ℕ × ℕ) :=
  (cfg.word_vocab_size :: cfg.feat_vocab_sizes).zip
    ((cfg.word_vec_size :: featDims cfg).zip
      (cfg.word_padding_idx :: cfg.feat_padding_idx))

/-- The lookup-table construction step of `Embeddings.__init__` (source lines
152-167): one `nn.Embedding` per channel, either trainable (randomly
initialized via `rng`) or embeddingless (structured, possibly failing). -/
def mkLuts (K : Type) [LinearOrderedField K] (rng : ℕ → ℕ → ℕ → List (List K))
    (cfg : EmbConfig) : Except EmbError (List (Table K)) :=
  if cfg.enable_embeddingless then
    (embParams cfg).mapM (fun vdp => create_embeddingless K vdp.1 vdp.2.1 vdp.2.2)
  else
    .ok (((List.range (embParams cfg).length).zip (embParams cfg)).map
      (fun ivdp => mkTrainableTable (rng ivdp.1 ivdp.2.1 ivdp.2.2.1)
        ivdp.2.2.1 ivdp.2.2.2))

/-- The positional-encoding construction step of `Embeddings.__init__`
(source lines 190-194): a `PositionalEncoding` of width `embedding_size`
when the flag is set (an odd width failing construction), nothing otherwise. -/
def peStage (K : Type) [LinearOrderedField K] (ops : RealOps K) (cfg : EmbConfig)
    (embedding_size : ℕ) : Except EmbError (Option (PositionalEncoding K)) :=
  if cfg.position_encoding then (mkPositionalEncoding ops embedding_size).map some
  else .ok none

/-- The `freeze_word_vecs` step of `Embeddings.__init__` (source lines
196-197): clear `requires_grad` on the word lookup table only. -/
def freezeStage {K : Type} (cfg : EmbConfig) (luts : List (Table K)) :
    List (Table K) :=
  if cfg.freeze_word_vecs then
    match luts with
    | [] => []
    | t :: rest => { t with requiresGrad := false } :: rest
  else luts

/-- Model of `Embeddings.__init__` (source lines 107-197).  `rng i vocab dim`
stands for the random initial weight of the `i`-th `nn.Embedding`; `mlpW` and
`mlpB` stand for the random initial weight and bias of the `nn.Linear` used
by the `mlp` merge.  Construction validates the arguments, derives the
channel widths, builds the lookup tables (the embeddingless variant failing
on a width smaller than its vocabulary), publishes `embedding_size`, adds the
`mlp` stage only when `feat_merge == 'mlp'` and at least one feature channel
exists, adds the positional-encoding stage (failing on an odd
`embedding_size`), and finally applies `freeze_word_vecs`. -/
def mkEmbeddings {K : Type} [LinearOrderedField K] (ops : RealOps K)
    (rng : ℕ → ℕ → ℕ → List (List K)) (mlpW : List (List K)) (mlpB : List K)
    (cfg : EmbConfig) : Except EmbError (Embeddings K) := do
  let () ← validate_args cfg
  let emb_dims := cfg.word_vec_size :: featDims cfg
  let luts ← mkLuts K rng cfg
  let embedding_size := if cfg.feat_merge = "concat" then emb_dims.sum else cfg.word_vec_size
  let mlp :=
    if cfg.feat_merge = "mlp" ∧ 0 < cfg.feat_vocab_sizes.length then some (mlpW, mlpB)
    else none
  let pe ← peStage K ops cfg embedding_size
  return { word_vec_size := cfg.word_vec_size
           word_padding_idx := cfg.word_padding_idx
           feat_merge := cfg.feat_merge
           luts := freezeStage cfg luts
           emb_dims := emb_dims
           embedding_size := embedding_size
           mlp := mlp
           pe := pe }

/-- Row lookup in an embedding table.  Out-of-range indices are a caller
contract violation; the model returns an empty row there. -/
def lookupRow {K : Type} (t : Table K) (idx : ℕ) : List K :=
  t.rows.getD idx []

/-- Elementwise sum of a list of equal-width vectors. -/
def sumVecs {K : Type} [LinearOrderedField K] : List (List K) → List K
  | [] => []
  | v :: vs => vs.foldl (fun a b => a.zipWith (· + ·) b) v

/-- Modelled from the spec: the `Elementwise` merge container
(`mammoth.modules.util_class`, not among the provided sources) looks up every
channel of each token and merges the per-channel vectors per section 4.3 of
the specification: `concat` and `mlp` lay the vectors end to end (the `mlp`
projection is a separate later stage), `sum` adds them elementwise. -/
def elementwise {K : Type} [LinearOrderedField K] (feat_merge : String)
    (luts : List (Table K)) (source : List (List ℕ)) : List (List K) :=
  source.map (fun token =>
    let vecs := (luts.zip token).map (fun tp => lookupRow tp.1 tp.2)
    if feat_merge = "sum" then sumVecs vecs else vecs.flatten)

/-- Rectified linear unit applied componentwise. -/
def reluVec {K : Type} [LinearOrderedField K] (v : List K) : List K :=
  v.map (fun x => max x 0)

/-- Application of `nn.Linear` with weight matrix `w` and bias `b`. -/
def linear {K : Type} [LinearOrderedField K] (w : List (List K)) (b : List K)
    (x : List K) : List K :=
  (w.map (fun row => (row.zipWith (· * ·) x).sum)).zipWith (· + ·) b

/-- Model of `Embeddings.forward` (source lines 255-274): channel lookup and
merge, then the optional `mlp` projection with `ReLU`, then the optional
positional encoding, which is the only stage receiving `step`. -/
def Embeddings.forward {K : Type} [LinearOrderedField K] (ops : RealOps K)
    (e : Embeddings K) (source : List (List ℕ)) (step : Option ℕ) :
    Except EmbError (List (List K)) :=
  let x := elementwise e.feat_merge e.luts source
  let x :=
    match e.mlp with
    | some wb => x.map (fun v => reluVec (linear wb.1 wb.2 v))
    | none => x
  match e.pe with
  | some p => p.forward ops x step
  | none => .ok x

/-- Model of `Embeddings.load_pretrained_vectors` (source lines 238-253),
taking the already-loaded pretrained word table: if the internal word width
exceeds the pretrained width `P`, the pretrained values replace the first `P`
columns of each word row; if it is smaller, the first `word_vec_size` columns
of the pretrained table are copied; if equal, the pretrained table is copied
verbatim.  No other table is touched. -/
def Embeddings.load_pretrained_vectors {K : Type} [LinearOrderedField K]
    (e : Embeddings K) (pretrained : List (List K)) : Embeddings K :=
  let pretrained_vec_size := (pretrained.headD []).length
  let word_lut := e.luts.headD { rows := [], requiresGrad := true }
  let newRows :=
    if pretrained_vec_size < e.word_vec_size then
      (word_lut.rows.zip pretrained).map
        (fun wp => wp.2 ++ wp.1.drop pretrained_vec_size)
    else if e.word_vec_size < pretrained_vec_size then
      pretrained.map (fun r => r.take e.word_vec_size)
    else
      pretrained
  { e with luts := { word_lut with rows := newRows } :: e.luts.tail }

/-- Model of the `PluggableEmbeddings` registry (source lines 296-328): the
`nn.ModuleDict` contents, with each instance stored under the key
`"embeddings_" ++ key`, and the mutable `active_key` field. -/
structure PluggableEmbeddings (K : Type) where
  modules : List (String × Embeddings K)
  active_key : Option String
deriving Repr, DecidableEq

/-- Model of `PluggableEmbeddings.__init__`: register every instance under
`"embeddings_" ++ key`; `active_key` starts out `None`. -/
def mkPluggableEmbeddings {K : Type} (d : List (String × Embeddings K)) :
    PluggableEmbeddings K :=
  { modules := d.map (fun ke => ("embeddings_" ++ ke.1, ke.2)), active_key := none }

/-- Model of `PluggableEmbeddings.activate` (source lines 311-313): assert
that `"embeddings_" ++ key` is registered, then set `active_key`. -/
def PluggableEmbeddings.activate {K : Type} (r : PluggableEmbeddings K)
    (key : String) : Except EmbError (PluggableEmbeddings K) :=
  match List.lookup ("embeddings_" ++ key) r.modules with
  | some _ => .ok { r with active_key := some key }
  | none => .error .keyNotFound

/-- The state of a registry after an `activate` call whose failure was caught:
a raised `AssertionError` happens before the `active_key` assignment, so the
registry object is unchanged. -/
def PluggableEmbeddings.activateOrKeep {K : Type} (r : PluggableEmbeddings K)
    (key : String) : PluggableEmbeddings K :=
  match r.activate key with
  | .ok r2 => r2
  | .error _ => r

/-- Model of the `PluggableEmbeddings._active_embeddings` property (source
lines 315-321): raise the "must activate before forward" error when no key
was ever activated, otherwise return the registered instance. -/
def PluggableEmbeddings.activeEmbeddings {K : Type} (r : PluggableEmbeddings K) :
    Except EmbError (Embeddings K) :=
  match r.active_key with
  | none => .error .notActivated
  | some k =>
    match List.lookup ("embeddings_" ++ k) r.modules with
    | some e => .ok e
    | none => .error .keyNotFound

/-- Model of `PluggableEmbeddings.forward` (source lines 323-324): delegate
to the active instance's `forward`. -/
def PluggableEmbeddings.forward {K : Type} [LinearOrderedField K] (ops : RealOps K)
    (r : PluggableEmbeddings K) (source : List (List ℕ)) (step : Option ℕ) :
    Except EmbError (List (List K)) :=
  (r.activeEmbeddings).bind (fun e => e.forward ops source step)

/-- Python dict assignment on an association list: replace the value in place
if the key is present, otherwise append the binding at the end. -/
def upsert {α : Type} (k : String) (v : α) : List (String × α) → List (String × α)
  | [] => [(k, v)]
  | kv :: rest => if kv.1 = k then (k, v) :: rest else kv :: upsert k v rest

/-- Whether a token is excluded by the optional filter set
(`filter_set is not None and l_split[0] not in filter_set`). -/
def excludedBy (filter_set : Option (List String)) (tok : String) : Bool :=
  match filter_set with
  | none => false
  | some s => !s.contains tok

/-- Split a character list at every character satisfying `p`, keeping the
(possibly empty) fields between separators, as Python `str.split(sep)` does
with an explicit separator. -/
def splitOnP (p : Char → Bool) : List Char → List (List Char)
  | [] => [[]]
  | c :: rest =>
    match splitOnP p rest with
    | [] => [[]]
    | f :: fs => if p c then [] :: f :: fs else (c :: f) :: fs

/-- Python `str.strip()`: drop leading and trailing whitespace. -/
def trimChars (cs : List Char) : List Char :=
  ((cs.dropWhile Char.isWhitespace).reverse.dropWhile Char.isWhitespace).reverse

/-- Fields of one line as the source computes them:
`line.decode('utf8').strip().split(' ')` — a split on the single space
character, keeping empty fields between adjacent spaces. -/
def lineFields (line : String) : List String :=
  (splitOnP (fun c => c == ' ') (trimChars line.data)).map (fun cs => String.mk cs)

/-- The failure raised by Python `float` on a malformed field, for example
`float('')` on the empty field produced by two adjacent spaces. -/
inductive ParseError where
  | valueError
deriving DecidableEq, Repr

/-- Model of the loop body of `read_embeddings` (source lines 334-357),
processing the lines in order with the `enumerate` counter `i`: a line with
index below `skip_lines` is skipped, an empty line stops the loop, a line
splitting into exactly 2 fields is skipped, otherwise the vector counter is
bumped and — unless the token is excluded by the filter set — the list
comprehension `[float(em) for em in l_split[1:]]` is evaluated, any malformed
field raising `ValueError` (modelled by `parse` returning `none`) before the
dictionary assignment, and on success the first field is mapped to the parsed
remainder. -/
def readEmbeddingsAux {K : Type} (parse : String → Option K)
    (filter_set : Option (List String)) (skip_lines : ℕ) :
    ℕ → List String → List (String × List K) → ℕ →
      Except ParseError (List (String × List K) × ℕ)
  | _, [], embs, total => .ok (embs, total)
  | i, line :: rest, embs, total =>
    if i < skip_lines then
      readEmbeddingsAux parse filter_set skip_lines (i + 1) rest embs total
    else if line = "" then
      .ok (embs, total)
    else
      let l_split := lineFields line
      if l_split.length = 2 then
        readEmbeddingsAux parse filter_set skip_lines (i + 1) rest embs total
      else if excludedBy filter_set (l_split.headD "") then
        readEmbeddingsAux parse filter_set skip_lines (i + 1) rest embs (total + 1)
      else
        match l_split.tail.mapM parse with
        | none => .error .valueError
        | some vec =>
          readEmbeddingsAux parse filter_set skip_lines (i + 1) rest
            (upsert (l_split.headD "") vec embs) (total + 1)

/-- Model of `read_embeddings` (source lines 334-357) on the decoded lines of
the file: returns the token-to-vector mapping and the count of non-header
lines seen, or propagates the `ValueError` that `float` raises on a
malformed field. -/
def read_embeddings {K : Type} (parse : String → Option K)
    (filter_set : Option (List String)) (skip_lines : ℕ) (lines : List String) :
    Except ParseError (List (String × List K) × ℕ) :=
  readEmbeddingsAux parse filter_set skip_lines 0 lines [] 0

/-- One-line step of the specification-level reader: skip 2-field lines and
filtered tokens, otherwise parse the remainder (a malformed field raising the
float error) and bind the first field to it. -/
def specStep {K : Type} (parse : String → Option K) (filter_set : Option (List String))
    (fields : String → List String) (embs : List (String × List K)) (line : String) :
    Except ParseError (List (String × List K)) :=
  let l_split := fields line
  if l_split.length = 2 then .ok embs
  else if excludedBy filter_set (l_split.headD "") then .ok embs
  else
    match l_split.tail.mapM parse with
    | none => .error .valueError
    | some vec => .ok (upsert (l_split.headD "") vec embs)

/-- The reader restated per the amended claim: after dropping `skip_lines`
leading lines, process lines up to the first empty one, splitting each line
on the single space character, with a malformed field failing the whole
read. -/
def readEmbeddingsSpecSpace {K : Type} (parse : String → Option K)
    (filter_set : Option (List String)) (skip_lines : ℕ) (lines : List String) :
    Except ParseError (List (String × List K)) :=
  (((lines.drop skip_lines).takeWhile (fun l => l ≠ "")).foldlM
    (specStep parse filter_set lineFields) [])

/-- Fields of one line under the claim's wording: split on whitespace (Python
`str.split()` semantics — runs of whitespace separate fields, no empty
fields). -/
def wsFields (line : String) : List String :=
  ((splitOnP (fun c => c.isWhitespace) line.data).filter (fun cs => cs ≠ [])).map
    (fun cs => String.mk cs)

/-- The reader as the claim words it: identical to `readEmbeddingsSpecSpace`
except that lines are split on whitespace. -/
def readEmbeddingsSpecWhitespace {K : Type} (parse : String → Option K)
    (filter_set : Option (List String)) (skip_lines : ℕ) (lines : List String) :
    Except ParseError (List (String × List K)) :=
  (((lines.drop skip_lines).takeWhile (fun l => l ≠ "")).foldlM
    (specStep parse filter_set wsFields) [])

/-- The rational `7/10` in reduced form (the default `feat_vec_exponent`),
written as an explicit numerator/denominator pair so that concrete
configurations evaluate by `decide`. -/
def q710 : ℚ := Rat.mk' 7 10 (by decide) (by decide)

/-- The rational `1/2` in reduced form, used as a concrete exponent. -/
def qhalf : ℚ := Rat.mk' 1 2 (by decide) (by decide)

/-- A trivial random initializer over the rationals, used to instantiate
theorems on concrete inputs. -/
def rng0 : ℕ → ℕ → ℕ → List (List ℚ) := fun _ _ _ => []

/-- A model of Python `float` parsing over the rationals that accepts every
field, used to instantiate theorems on concrete inputs whose fields are all
well formed. -/
def parse0 : String → Option ℚ := fun _ => some 0

/-- A model of Python `float` parsing over the rationals that raises on the
empty string, as `float('')` does. -/
def parseF : String → Option ℚ := fun s => if s = "" then none else some 0

/-- Decidable equality of `Except` values, used to evaluate the models on
concrete inputs. -/
instance {ε α : Type} [DecidableEq ε] [DecidableEq α] : DecidableEq (Except ε α) := fun x y =>
  match x, y with
  | .ok a, .ok b => if h : a = b then isTrue (by rw [h]) else isFalse (by simp [h])
  | .error a, .error b => if h : a = b then isTrue (by rw [h]) else isFalse (by simp [h])
  | .ok _, .error _ => isFalse (by simp)
  | .error _, .ok _ => isFalse (by simp)

/-- Concrete configuration for the C8 witness: a structured word table of
width 4 over a vocabulary of size 5. -/
def cfg8w : EmbConfig :=
  { word_vec_size := 4, word_vocab_size := 5, word_padding_idx := 0,
    feat_vec_exponent := q710, enable_embeddingless := true }

/-- Concrete configuration for the C5 witness: `concat` merge of a width-10
word channel with two width-3 feature channels. -/
def cfg5w : EmbConfig :=
  { word_vec_size := 10, word_vocab_size := 7, word_padding_idx := 0,
    feat_merge := "concat", feat_vec_exponent := q710, feat_vec_size := 3,
    feat_vocab_sizes := [4, 5], feat_padding_idx := [0, 0] }

/-- The instance built from `cfg5w` with the trivial initializer. -/
def e5w : Embeddings ℚ :=
  { word_vec_size := 10, word_padding_idx := 0, feat_merge := "concat",
    luts := [⟨[], true⟩, ⟨[], true⟩, ⟨[], true⟩],
    emb_dims := [10, 3, 3], embedding_size := 16, mlp := none, pe := none }

/-- Concrete configuration refuting C3's rounding rule: one feature channel
with vocabulary size 3 and exponent 1/2. -/
def cfg3w : EmbConfig :=
  { word_vec_size := 4, word_vocab_size := 5, word_padding_idx := 0,
    feat_merge := "concat", feat_vec_exponent := qhalf,
    feat_vocab_sizes := [3], feat_padding_idx := [0] }

/-- Concrete configuration refuting C6: `mlp` merge with an empty feature
vocabulary list and otherwise default arguments. -/
def cfg6w : EmbConfig :=
  { word_vec_size := 4, word_vocab_size := 5, word_padding_idx := 0,
    feat_merge := "mlp", feat_vec_exponent := q710 }

/-- Embeddings instance used by the C7 witness: word width 3 over two rows,
plus one feature table that must stay unchanged. -/
def e7w : Embeddings ℚ :=
  { word_vec_size := 3, word_padding_idx := 0, feat_merge := "concat",
    luts := [⟨[[1, 2, 3], [4, 5, 6]], true⟩, ⟨[[9]], true⟩],
    emb_dims := [3, 1], embedding_size := 4, mlp := none, pe := none }

/-- Tiny embeddings instance registered under the key `en` in registry
witnesses. -/
def ew1 : Embeddings ℚ :=
  { word_vec_size := 2, word_padding_idx := 0, feat_merge := "concat",
    luts := [⟨[[1, 2], [3, 4]], true⟩], emb_dims := [2], embedding_size := 2,
    mlp := none, pe := none }

/-- Tiny embeddings instance registered under the key `de` in registry
witnesses. -/
def ew2 : Embeddings ℚ :=
  { word_vec_size := 2, word_padding_idx := 0, feat_merge := "concat",
    luts := [⟨[[5, 6], [7, 8]], true⟩], emb_dims := [2], embedding_size := 2,
    mlp := none, pe := none }

/-- The mapping `{en, de}` used by the registry witnesses. -/
def d1 : List (String × Embeddings ℚ) := [("en", ew1), ("de", ew2)]

/-- The registry over `d1` after a successful `activate "en"`. -/
def r2v : PluggableEmbeddings ℚ :=
  { modules := [("embeddings_en", ew1), ("embeddings_de", ew2)],
    active_key := some "en" }

/-! ## Theorems -/

/-- The number of rows of the precomputed positional table equals `max_len`. -/
theorem peTable_length {K : Type} [LinearOrderedField K] (ops : RealOps K)
    (dim max_len : ℕ) : (peTable ops dim max_len).length = max_len := by
  simp [peTable]

/-- C2: for a `PositionalEncoding` constructed with even width `D` and maximum
length `L`, `forward` on a sequence of length `ℓ` at offset `o` succeeds
exactly when `o + ℓ ≤ L`, returning the input scaled by `sqrt D` plus the
precomputed rows `[o, o + ℓ)`, and fails with the sequence-too-long error
exactly when `o + ℓ > L`; the table is never extended. -/
theorem positional_encoding_forward_spec {K : Type} [LinearOrderedField K]
    (ops : RealOps K) (D L : ℕ) (hD : D % 2 = 0) (p : PositionalEncoding K)
    (hp : mkPositionalEncoding ops D L = .ok p) (emb : List (List K)) (o : ℕ) :
    (o + emb.length ≤ L →
      p.forward ops emb (some o) =
        .ok ((emb.map (fun row => row.map (fun x => x * ops.sqrt (D : K)))).zipWith
          (fun a b => a.zipWith (· + ·) b) ((p.pe.drop o).take emb.length)))
    ∧ (L < o + emb.length → p.forward ops emb (some o) = .error .sequenceTooLong) := by
  have hp2 : p = ⟨peTable ops D L, D⟩ := by
    simp only [mkPositionalEncoding, hD] at hp
    simp at hp
    exact hp.symm
  subst hp2
  have hlen : (peTable ops D L).length = L := peTable_length ops D L
  constructor
  · intro h
    simp only [PositionalEncoding.forward, Option.getD_some, hlen]
    rw [if_neg (by omega)]
  · intro h
    simp only [PositionalEncoding.forward, Option.getD_some, hlen]
    rw [if_pos (by omega)]

/-- Witness for C2 at `K = ℚ`, `D = 2`, `L = 3`, a sequence of length 2 at
offset 1. -/
theorem positional_encoding_forward_spec_witness :
    (2 % 2 = 0)
    ∧ (mkPositionalEncoding ratOps 2 3 = .ok (⟨peTable ratOps 2 3, 2⟩ : PositionalEncoding ℚ))
    ∧ ((1 + ([[(1 : ℚ), 2], [3, 4]]).length ≤ 3 →
        (⟨peTable ratOps 2 3, 2⟩ : PositionalEncoding ℚ).forward ratOps [[1, 2], [3, 4]] (some 1) =
          .ok (([[(1 : ℚ), 2], [3, 4]].map
              (fun row => row.map (fun x => x * ratOps.sqrt (2 : ℚ)))).zipWith
            (fun a b => a.zipWith (· + ·) b)
            (((peTable ratOps 2 3).drop 1).take ([[(1 : ℚ), 2], [3, 4]]).length)))
      ∧ (3 < 1 + ([[(1 : ℚ), 2], [3, 4]]).length →
        (⟨peTable ratOps 2 3, 2⟩ : PositionalEncoding ℚ).forward ratOps [[1, 2], [3, 4]] (some 1) =
          .error .sequenceTooLong)) :=
  ⟨rfl, rfl, positional_encoding_forward_spec ratOps 2 3 rfl _ rfl [[1, 2], [3, 4]] 1⟩

/-- C4: a structured (embeddingless) table for vocabulary size `V`, width
`D ≥ V` and padding index `p < V` is marked non-trainable, has `V` rows, the
row at every index `i ≠ p` is the one-hot vector for `i` padded with `D - V`
trailing zeros, and the row at `p` is all zeros. -/
theorem create_embeddingless_spec {K : Type} [LinearOrderedField K] (V D p : ℕ)
    (hVD : V ≤ D) (hp : p < V) (t : Table K)
    (ht : create_embeddingless K V D p = .ok t) :
    t.requiresGrad = false
    ∧ t.rows.length = V
    ∧ (∀ i, i < V → i ≠ p →
        t.rows.getD i [] =
          ((List.range V).map (fun j => if j = i then (1 : K) else 0)) ++
            List.replicate (D - V) 0)
    ∧ t.rows.getD p [] = List.replicate D 0 := by
  simp only [create_embeddingless, if_neg (Nat.not_lt.mpr hVD)] at ht
  simp at ht
  subst ht
  refine ⟨rfl, by simp, ?_, ?_⟩
  · intro i hi hne
    rw [List.getD_eq_getElem _ _ (by simp [hi]), List.getElem_set_ne (Ne.symm hne)]
    simp
  · rw [List.getD_eq_getElem _ _ (by simp [hp]), List.getElem_set_self]

/-- Witness for C4 at `K = ℚ`, `V = 3`, `D = 5`, padding index 1. -/
theorem create_embeddingless_spec_witness :
    (3 ≤ 5) ∧ (1 < 3)
    ∧ (∃ t : Table ℚ, create_embeddingless ℚ 3 5 1 = .ok t
        ∧ t.requiresGrad = false
        ∧ t.rows.length = 3
        ∧ (∀ i, i < 3 → i ≠ 1 →
            t.rows.getD i [] =
              ((List.range 3).map (fun j => if j = i then (1 : ℚ) else 0)) ++
                List.replicate (5 - 3) 0)
        ∧ t.rows.getD 1 [] = List.replicate 5 0) := by
  refine ⟨by decide, by decide,
    ⟨{ rows := [[1, 0, 0, 0, 0], [0, 0, 0, 0, 0], [0, 0, 1, 0, 0]], requiresGrad := false },
      by decide, ?_⟩⟩
  exact create_embeddingless_spec 3 5 1 (by decide) (by decide) _ (by decide)

/-- Indexing into a zip of two sufficiently long lists gives the pair of the
two components at that index. -/
theorem getElem_zip_pair {α β : Type} (l₁ : List α) (l₂ : List β) (i : ℕ)
    (h1 : i < l₁.length) (h2 : i < l₂.length) (hz : i < (l₁.zip l₂).length) :
    (l₁.zip l₂)[i] = (l₁[i], l₂[i]) := by
  have h := (List.getElem?_zip_eq_some (z := (l₁[i], l₂[i])) (i := i)).mpr
    ⟨by rw [List.getElem?_eq_getElem], by rw [List.getElem?_eq_getElem]⟩
  rw [List.getElem?_eq_getElem hz] at h
  exact Option.some.inj h

/-- Arguments that validate successfully have matching channel and
padding-index counts. -/
theorem validate_args_pads (cfg : EmbConfig) (hv : validate_args cfg = .ok ()) :
    cfg.feat_vocab_sizes.length = cfg.feat_padding_idx.length := by
  by_contra hne
  unfold validate_args at hv
  simp only [if_neg hne] at hv
  split at hv
  · simp at hv
  · split at hv
    · simp at hv
    · split at hv <;> simp at hv

/-- The derived feature widths, one per feature channel. -/
theorem featDims_length (cfg : EmbConfig) :
    (featDims cfg).length = cfg.feat_vocab_sizes.length := by
  unfold featDims
  split
  · simp
  · split <;> simp

/-- If any channel in the parameter list requests a width smaller than its
vocabulary size, the embeddingless table construction fails with the
negative-dimension error, since the only failure of `create_embeddingless`
is `negativeDim`. -/
theorem mapM_create_embeddingless_fails {K : Type} [LinearOrderedField K]
    (l : List (ℕ × ℕ × ℕ)) (hx : ∃ vdp ∈ l, vdp.2.1 < vdp.1) :
    l.mapM (fun vdp => create_embeddingless K vdp.1 vdp.2.1 vdp.2.2) =
      .error .negativeDim := by
  induction l with
  | nil => simp at hx
  | cons hd tl ih =>
    rw [List.mapM_cons]
    by_cases hhd : hd.2.1 < hd.1
    · rw [show create_embeddingless K hd.1 hd.2.1 hd.2.2 =
        (Except.error EmbError.negativeDim : Except EmbError (Table K)) from by
          simp [create_embeddingless, hhd]]
      rfl
    · obtain ⟨v, hv, hvlt⟩ := hx
      rcases List.mem_cons.mp hv with hv | hv
      · exact absurd (hv ▸ hvlt) hhd
      · obtain ⟨t, hok⟩ : ∃ t, create_embeddingless K hd.1 hd.2.1 hd.2.2 = .ok t := by
          simp [create_embeddingless, hhd]
        rw [ih ⟨v, hv, hvlt⟩, hok]
        rfl

/-- C8: with structured (embeddingless) tables enabled and any channel whose
embedding width is smaller than its vocabulary size, and arguments passing
validation, `Embeddings` construction fails synchronously with the
negative-dimension error. -/
theorem embeddingless_width_lt_vocab_fails {K : Type} [LinearOrderedField K]
    (ops : RealOps K) (rng : ℕ → ℕ → ℕ → List (List K))
    (mlpW : List (List K)) (mlpB : List K) (cfg : EmbConfig)
    (hv : validate_args cfg = .ok ())
    (hemb : cfg.enable_embeddingless = true)
    (i : ℕ) (hi : i < 1 + cfg.feat_vocab_sizes.length)
    (hlt : (cfg.word_vec_size :: featDims cfg).getD i 0 <
      (cfg.word_vocab_size :: cfg.feat_vocab_sizes).getD i 0) :
    mkEmbeddings ops rng mlpW mlpB cfg = .error .negativeDim := by
  have hpads := validate_args_pads cfg hv
  have hdims := featDims_length cfg
  have hiv : i < (cfg.word_vocab_size :: cfg.feat_vocab_sizes).length := by
    simp; omega
  have hid' : i < (cfg.word_vec_size :: featDims cfg).length := by
    simp [hdims]; omega
  have hip : i < (cfg.word_padding_idx :: cfg.feat_padding_idx).length := by
    simp [← hpads]; omega
  have hid : i < ((cfg.word_vec_size :: featDims cfg).zip
      (cfg.word_padding_idx :: cfg.feat_padding_idx)).length := by
    rw [List.length_zip]; omega
  have hz : i < ((cfg.word_vocab_size :: cfg.feat_vocab_sizes).zip
      ((cfg.word_vec_size :: featDims cfg).zip
        (cfg.word_padding_idx :: cfg.feat_padding_idx))).length := by
    rw [List.length_zip, List.length_zip]; omega
  have hmem : ∃ vdp ∈ (cfg.word_vocab_size :: cfg.feat_vocab_sizes).zip
      ((cfg.word_vec_size :: featDims cfg).zip
        (cfg.word_padding_idx :: cfg.feat_padding_idx)), vdp.2.1 < vdp.1 := by
    refine ⟨((cfg.word_vocab_size :: cfg.feat_vocab_sizes).zip
      ((cfg.word_vec_size :: featDims cfg).zip
        (cfg.word_padding_idx :: cfg.feat_padding_idx)))[i], List.getElem_mem hz, ?_⟩
    rw [getElem_zip_pair _ _ i hiv hid hz, getElem_zip_pair _ _ i hid' hip hid]
    simp only
    rw [List.getD_eq_getElem _ _ hiv, List.getD_eq_getElem _ _ hid'] at hlt
    exact hlt
  have hfail : mkLuts K rng cfg = .error .negativeDim := by
    have hm := mapM_create_embeddingless_fails (K := K)
      ((cfg.word_vocab_size :: cfg.feat_vocab_sizes).zip
        ((cfg.word_vec_size :: featDims cfg).zip
          (cfg.word_padding_idx :: cfg.feat_padding_idx))) hmem
    unfold mkLuts
    rw [hemb, if_pos rfl]
    unfold embParams
    exact hm
  unfold mkEmbeddings
  rw [hv, hfail]
  rfl

/-- Witness for C8: the width-4 / vocabulary-5 structured configuration fails
construction with the negative-dimension error. -/
theorem embeddingless_width_lt_vocab_fails_witness :
    (validate_args cfg8w = .ok ())
    ∧ (cfg8w.enable_embeddingless = true)
    ∧ (0 < 1 + cfg8w.feat_vocab_sizes.length)
    ∧ ((cfg8w.word_vec_size :: featDims cfg8w).getD 0 0 <
        (cfg8w.word_vocab_size :: cfg8w.feat_vocab_sizes).getD 0 0)
    ∧ mkEmbeddings ratOps rng0 [] [] cfg8w = .error .negativeDim :=
  ⟨by decide, rfl, by decide, by decide,
    embeddingless_width_lt_vocab_fails ratOps rng0 [] [] cfg8w (by decide) rfl 0
      (by decide) (by decide)⟩

/-- Field contents of a successfully constructed `Embeddings` instance, read
off the construction: the channel widths are the word width followed by the
derived feature widths, `embedding_size` is their sum under `concat` and the
word width otherwise, and the `mlp` stage exists exactly under `mlp` merge
with at least one feature channel. -/
theorem mkEmbeddings_ok_fields {K : Type} [LinearOrderedField K] (ops : RealOps K)
    (rng : ℕ → ℕ → ℕ → List (List K)) (mlpW : List (List K)) (mlpB : List K)
    (cfg : EmbConfig) (e : Embeddings K)
    (he : mkEmbeddings ops rng mlpW mlpB cfg = .ok e) :
    e.emb_dims = cfg.word_vec_size :: featDims cfg
    ∧ e.embedding_size =
      (if cfg.feat_merge = "concat" then (cfg.word_vec_size :: featDims cfg).sum
        else cfg.word_vec_size)
    ∧ e.word_vec_size = cfg.word_vec_size
    ∧ e.word_padding_idx = cfg.word_padding_idx
    ∧ e.feat_merge = cfg.feat_merge
    ∧ e.mlp = (if cfg.feat_merge = "mlp" ∧ 0 < cfg.feat_vocab_sizes.length
        then some (mlpW, mlpB) else none) := by
  unfold mkEmbeddings at he
  cases hval : validate_args cfg with
  | error err =>
    rw [hval] at he
    exact absurd he (by simp [Bind.bind, Except.bind])
  | ok u =>
    cases u
    rw [hval] at he
    cases hluts : mkLuts K rng cfg with
    | error err =>
      rw [hluts] at he
      exact absurd he (by simp [Bind.bind, Except.bind])
    | ok luts =>
      rw [hluts] at he
      simp only [Bind.bind, Except.bind] at he
      cases hpe : peStage K ops cfg (if cfg.feat_merge = "concat"
          then (cfg.word_vec_size :: featDims cfg).sum else cfg.word_vec_size) with
      | error err =>
        rw [hpe] at he
        exact absurd he (by simp [Bind.bind, Except.bind])
      | ok pe =>
        rw [hpe] at he
        simp only [Bind.bind, Except.bind, pure, Except.pure] at he
        have he2 := Except.ok.inj he
        subst he2
        exact ⟨rfl, rfl, rfl, rfl, rfl, rfl⟩

/-- C5: for every successfully constructed `Embeddings` instance, the
published `embedding_size` is the sum of all channel widths (word plus
features) under `concat` merge, and the word embedding width under `sum` or
`mlp` merge. -/
theorem embedding_size_spec {K : Type} [LinearOrderedField K] (ops : RealOps K)
    (rng : ℕ → ℕ → ℕ → List (List K)) (mlpW : List (List K)) (mlpB : List K)
    (cfg : EmbConfig) (e : Embeddings K)
    (he : mkEmbeddings ops rng mlpW mlpB cfg = .ok e) :
    (cfg.feat_merge = "concat" →
      e.embedding_size = cfg.word_vec_size + (featDims cfg).sum)
    ∧ (cfg.feat_merge = "sum" ∨ cfg.feat_merge = "mlp" →
      e.embedding_size = cfg.word_vec_size) := by
  obtain ⟨-, hsize, -, -, -, -⟩ := mkEmbeddings_ok_fields ops rng mlpW mlpB cfg e he
  constructor
  · intro hc
    rw [hsize, if_pos hc, List.sum_cons]
  · intro hsm
    rcases hsm with h | h <;> rw [hsize, if_neg (by rw [h]; decide)]

/-- Witness for C5: `concat` merge of widths `[10, 3, 3]` publishes
`embedding_size = 16`. -/
theorem embedding_size_spec_witness :
    (mkEmbeddings ratOps rng0 [] [] cfg5w = .ok e5w)
    ∧ ((cfg5w.feat_merge = "concat" →
        e5w.embedding_size = cfg5w.word_vec_size + (featDims cfg5w).sum)
      ∧ (cfg5w.feat_merge = "sum" ∨ cfg5w.feat_merge = "mlp" →
        e5w.embedding_size = cfg5w.word_vec_size)) :=
  ⟨by decide, embedding_size_spec ratOps rng0 [] [] cfg5w e5w (by decide)⟩

/-- C3 counterexample: with vocabulary size 3 and exponent 1/2 the
construction assigns feature width `int(3 ** 0.5) = 1` (truncation), while
the claim's `round(3 ** 0.5)` is 2 — the unique integer within 1/2 of
`sqrt 3` is 2, and 1 is not within 1/2 of it. -/
theorem feat_vec_exponent_round_counterexample :
    ((mkEmbeddings ratOps rng0 [] [] cfg3w).toOption.map (fun e => e.emb_dims) =
      some [4, 1])
    ∧ cfg3w.feat_vec_exponent.num.toNat = 1 ∧ cfg3w.feat_vec_exponent.den = 2
    ∧ isNearestTo 2 3 1 2
    ∧ ¬ isNearestTo 1 3 1 2 := by decide

/-- C3 (amended): when the merge strategy is not `sum` and the feature width
parameter is not positive, a non-positive exponent fails construction with
the non-positive-exponent error, and on success each feature channel with
vocabulary size `V` gets width `int(V ** e)` — the power truncated toward
zero, not rounded to nearest. -/
theorem feat_width_truncation_spec {K : Type} [LinearOrderedField K]
    (ops : RealOps K) (rng : ℕ → ℕ → ℕ → List (List K))
    (mlpW : List (List K)) (mlpB : List K) (cfg : EmbConfig)
    (hm : cfg.feat_merge ≠ "sum") (hs : cfg.feat_vec_size ≤ 0) :
    (cfg.feat_vec_exponent ≤ 0 →
      mkEmbeddings ops rng mlpW mlpB cfg = .error .nonPositiveExponent)
    ∧ (∀ e : Embeddings K, mkEmbeddings ops rng mlpW mlpB cfg = .ok e →
      e.emb_dims = cfg.word_vec_size ::
        cfg.feat_vocab_sizes.map (fun vocab => intPow vocab cfg.feat_vec_exponent)) := by
  have hns : ¬ 0 < cfg.feat_vec_size := Int.not_lt.mpr hs
  constructor
  · intro hexp
    have hval : validate_args cfg = .error .nonPositiveExponent := by
      simp only [validate_args]
      rw [if_neg hm, if_neg hns, if_pos hexp]
    unfold mkEmbeddings
    rw [hval]
    rfl
  · intro e he
    obtain ⟨hdims, -, -, -, -, -⟩ := mkEmbeddings_ok_fields ops rng mlpW mlpB cfg e he
    rw [hdims]
    unfold featDims
    rw [if_neg hm, if_neg hns]

/-- Witness for C3 (amended) at the configuration `cfg3w`: the feature width
comes out as `intPow 3 (1/2) = 1`. -/
theorem feat_width_truncation_spec_witness :
    (cfg3w.feat_merge ≠ "sum") ∧ (cfg3w.feat_vec_size ≤ 0)
    ∧ ((cfg3w.feat_vec_exponent ≤ 0 →
        mkEmbeddings ratOps rng0 [] [] cfg3w = .error .nonPositiveExponent)
      ∧ (∀ e : Embeddings ℚ, mkEmbeddings ratOps rng0 [] [] cfg3w = .ok e →
        e.emb_dims = cfg3w.word_vec_size ::
          cfg3w.feat_vocab_sizes.map (fun vocab => intPow vocab cfg3w.feat_vec_exponent))) :=
  ⟨by decide, by decide,
    feat_width_truncation_spec ratOps rng0 [] [] cfg3w (by decide) (by decide)⟩

/-- C6 counterexample: constructing with merge strategy `mlp` and zero
feature channels does not fail — it succeeds. -/
theorem mlp_without_features_constructs_counterexample :
    (mkEmbeddings ratOps rng0 [] [] cfg6w).isOk = true
    ∧ cfg6w.feat_merge = "mlp" ∧ cfg6w.feat_vocab_sizes = [] := by decide

/-- C6 (amended): constructing with merge strategy `mlp` and zero feature
channels succeeds for an otherwise valid configuration; the MLP projection
stage is simply omitted, so the pipeline degenerates to the word lookup. -/
theorem mlp_without_features_spec {K : Type} [LinearOrderedField K]
    (ops : RealOps K) (rng : ℕ → ℕ → ℕ → List (List K))
    (mlpW : List (List K)) (mlpB : List K) (cfg : EmbConfig)
    (hm : cfg.feat_merge = "mlp") (hf : cfg.feat_vocab_sizes = [])
    (hp : cfg.feat_padding_idx = []) (hemb : cfg.enable_embeddingless = false)
    (hpe : cfg.position_encoding = false)
    (hexp : 0 < cfg.feat_vec_exponent ∨ 0 < cfg.feat_vec_size) :
    ∃ e : Embeddings K, mkEmbeddings ops rng mlpW mlpB cfg = .ok e ∧ e.mlp = none := by
  have hms : ¬ cfg.feat_merge = "sum" := by rw [hm]; decide
  have hval : validate_args cfg = .ok () := by
    simp only [validate_args]
    rw [if_neg hms]
    by_cases hfs : 0 < cfg.feat_vec_size
    · rw [if_pos hfs, if_pos (by rw [hf, hp])]
    · rw [if_neg hfs]
      rcases hexp with hx | hx
      · rw [if_neg (not_le.mpr hx), if_pos (by rw [hf, hp])]
      · exact absurd hx hfs
  have hluts : mkLuts K rng cfg =
      .ok (((List.range (embParams cfg).length).zip (embParams cfg)).map
        (fun ivdp => mkTrainableTable (rng ivdp.1 ivdp.2.1 ivdp.2.2.1)
          ivdp.2.2.1 ivdp.2.2.2)) := by
    unfold mkLuts
    rw [hemb]
    rfl
  have hpes : ∀ sz, peStage K ops cfg sz = .ok none := by
    intro sz
    unfold peStage
    rw [hpe]
    rfl
  refine ⟨Embeddings.mk cfg.word_vec_size cfg.word_padding_idx cfg.feat_merge
      (freezeStage cfg (((List.range (embParams cfg).length).zip (embParams cfg)).map
        (fun ivdp => mkTrainableTable (rng ivdp.1 ivdp.2.1 ivdp.2.2.1)
          ivdp.2.2.1 ivdp.2.2.2)))
      (cfg.word_vec_size :: featDims cfg)
      (if cfg.feat_merge = "concat" then (cfg.word_vec_size :: featDims cfg).sum
        else cfg.word_vec_size)
      (if cfg.feat_merge = "mlp" ∧ 0 < cfg.feat_vocab_sizes.length
        then some (mlpW, mlpB) else none)
      none, ?_, ?_⟩
  · unfold mkEmbeddings
    rw [hval, hluts]
    simp only [Bind.bind, Except.bind]
    rw [hpes]
    rfl
  · simp [hf]

/-- Witness for C6 (amended) at the configuration `cfg6w`. -/
theorem mlp_without_features_spec_witness :
    (cfg6w.feat_merge = "mlp") ∧ (cfg6w.feat_vocab_sizes = [])
    ∧ (cfg6w.feat_padding_idx = []) ∧ (cfg6w.enable_embeddingless = false)
    ∧ (cfg6w.position_encoding = false)
    ∧ (0 < cfg6w.feat_vec_exponent ∨ 0 < cfg6w.feat_vec_size)
    ∧ ∃ e : Embeddings ℚ, mkEmbeddings ratOps rng0 [] [] cfg6w = .ok e ∧ e.mlp = none :=
  ⟨rfl, rfl, rfl, rfl, rfl, Or.inl (by decide),
    mlp_without_features_spec ratOps rng0 [] [] cfg6w rfl rfl rfl rfl rfl
      (Or.inl (by decide))⟩

/-- Indexing with default into a dropped list shifts the index. -/
theorem getD_drop {α : Type} (l : List α) (m n : ℕ) (d : α) :
    (l.drop m).getD n d = l.getD (m + n) d := by
  have h := List.getElem?_drop l m n
  simp [List.getD_eq_getD_get?, List.get?_eq_getElem?, h]

/-- C7: `load_pretrained_vectors` with internal word width `W` and a
pretrained table of width `P` over the same vocabulary leaves every non-word
table unchanged, and updates the word table as follows: if `P < W` the
columns `[0, P)` become the pretrained values and the columns `[P, W)` keep
their pre-load values; if `W < P` the word table becomes the first `W`
columns of the pretrained table; if `W = P` the word table becomes exactly
the pretrained table. -/
theorem load_pretrained_vectors_spec {K : Type} [LinearOrderedField K]
    (e : Embeddings K) (pretrained : List (List K)) (P : ℕ)
    (wt : Table K) (rest : List (Table K)) (hl : e.luts = wt :: rest)
    (hne : pretrained ≠ []) (hP : ∀ r ∈ pretrained, r.length = P)
    (hrows : wt.rows.length = pretrained.length) :
    ((e.load_pretrained_vectors pretrained).luts.tail = rest)
    ∧ (P < e.word_vec_size →
        ∀ i j, i < pretrained.length → j < e.word_vec_size →
          (((e.load_pretrained_vectors pretrained).luts.headD ⟨[], true⟩).rows.getD
              i []).getD j 0 =
            if j < P then (pretrained.getD i []).getD j 0
            else (wt.rows.getD i []).getD j 0)
    ∧ (e.word_vec_size < P →
        ((e.load_pretrained_vectors pretrained).luts.headD ⟨[], true⟩).rows =
          pretrained.map (fun r => r.take e.word_vec_size))
    ∧ (e.word_vec_size = P →
        ((e.load_pretrained_vectors pretrained).luts.headD ⟨[], true⟩).rows =
          pretrained) := by
  have hPs : (pretrained.headD []).length = P := by
    cases pretrained with
    | nil => exact absurd rfl hne
    | cons r rs => exact hP r (List.mem_cons_self r rs)
  refine ⟨?_, ?_, ?_, ?_⟩
  · simp [Embeddings.load_pretrained_vectors, hl]
  · intro hPW i j hi hj
    simp only [Embeddings.load_pretrained_vectors, hl, hPs, List.headD_cons,
      List.tail_cons, if_pos hPW]
    have hiw : i < wt.rows.length := by omega
    have hzi : i < (wt.rows.zip pretrained).length := by
      rw [List.length_zip]; omega
    have hmi : i < ((wt.rows.zip pretrained).map
        (fun wp => wp.2 ++ wp.1.drop P)).length := by
      rw [List.length_map]; omega
    rw [List.getD_eq_getElem _ _ hmi, List.getElem_map,
      getElem_zip_pair _ _ i hiw hi hzi]
    simp only
    have hplen : (pretrained[i]).length = P :=
      hP _ (List.getElem_mem hi)
    by_cases hjP : j < P
    · rw [if_pos hjP, List.getD_append _ _ _ _ (by omega),
        List.getD_eq_getElem _ _ hi]
    · rw [if_neg hjP, List.getD_append_right _ _ _ _ (by omega), hplen,
        getD_drop, List.getD_eq_getElem _ _ hiw]
      have : P + (j - P) = j := by omega
      rw [this]
  · intro hWP
    simp only [Embeddings.load_pretrained_vectors, hl, hPs, List.headD_cons,
      if_neg (by omega : ¬ P < e.word_vec_size), if_pos hWP]
  · intro hWP
    simp only [Embeddings.load_pretrained_vectors, hl, hPs, List.headD_cons,
      if_neg (by omega : ¬ P < e.word_vec_size),
      if_neg (by omega : ¬ e.word_vec_size < P)]

/-- Witness for C7 at internal width 3 and pretrained width 2 over two rows. -/
theorem load_pretrained_vectors_spec_witness :
    (e7w.luts = ⟨[[1, 2, 3], [4, 5, 6]], true⟩ :: [⟨[[9]], true⟩])
    ∧ (([[7, 8], [10, 11]] : List (List ℚ)) ≠ [])
    ∧ (∀ r ∈ ([[7, 8], [10, 11]] : List (List ℚ)), r.length = 2)
    ∧ ((⟨[[1, 2, 3], [4, 5, 6]], true⟩ : Table ℚ).rows.length =
        ([[7, 8], [10, 11]] : List (List ℚ)).length)
    ∧ (((e7w.load_pretrained_vectors [[7, 8], [10, 11]]).luts.tail = [⟨[[9]], true⟩])
      ∧ (2 < e7w.word_vec_size →
          ∀ i j, i < ([[7, 8], [10, 11]] : List (List ℚ)).length → j < e7w.word_vec_size →
            (((e7w.load_pretrained_vectors [[7, 8], [10, 11]]).luts.headD
                ⟨[], true⟩).rows.getD i []).getD j 0 =
              if j < 2 then (([[7, 8], [10, 11]] : List (List ℚ)).getD i []).getD j 0
              else ((⟨[[1, 2, 3], [4, 5, 6]], true⟩ : Table ℚ).rows.getD i []).getD j 0)
      ∧ (e7w.word_vec_size < 2 →
          ((e7w.load_pretrained_vectors [[7, 8], [10, 11]]).luts.headD
              ⟨[], true⟩).rows =
            ([[7, 8], [10, 11]] : List (List ℚ)).map (fun r => r.take e7w.word_vec_size))
      ∧ (e7w.word_vec_size = 2 →
          ((e7w.load_pretrained_vectors [[7, 8], [10, 11]]).luts.headD
              ⟨[], true⟩).rows = [[7, 8], [10, 11]])) :=
  ⟨rfl, by decide, by decide, by decide,
    load_pretrained_vectors_spec e7w [[7, 8], [10, 11]] 2
      ⟨[[1, 2, 3], [4, 5, 6]], true⟩ [⟨[[9]], true⟩] rfl (by decide) (by decide)
      (by decide)⟩

/-- Left cancellation for string concatenation. -/
theorem string_append_left_cancel {s a b : String} (h : s ++ a = s ++ b) : a = b := by
  have hdata := congrArg String.data h
  simp only [String.data_append] at hdata
  cases a with
  | mk da =>
    cases b with
    | mk db =>
      exact congrArg String.mk (List.append_cancel_left hdata)

/-- Registering embeddings under `"embeddings_" ++ key` preserves lookup. -/
theorem lookup_prefixed {K : Type} (d : List (String × Embeddings K)) (k : String) :
    List.lookup ("embeddings_" ++ k)
      (d.map (fun ke => ("embeddings_" ++ ke.1, ke.2))) = List.lookup k d := by
  induction d with
  | nil => rfl
  | cons hd tl ih =>
    simp only [List.map_cons, List.lookup]
    by_cases hk : k = hd.1
    · rw [hk]
      simp
    · rw [beq_eq_false_iff_ne.mpr (fun h => hk (string_append_left_cancel h)),
        beq_eq_false_iff_ne.mpr hk]
      exact ih

/-- C1: a `PluggableEmbeddings` registry built from a key-to-instance mapping
fails `forward` with the not-activated error before any activation; fails
`activate` on a key not present in the mapping; and after a successful
`activate k`, `forward` returns exactly what instance `k`'s own `forward`
returns on the same input. -/
theorem pluggable_embeddings_spec {K : Type} [LinearOrderedField K]
    (ops : RealOps K) (d : List (String × Embeddings K))
    (source : List (List ℕ)) (step : Option ℕ) :
    ((mkPluggableEmbeddings d).forward ops source step = .error .notActivated)
    ∧ (∀ k, List.lookup k d = none →
        (mkPluggableEmbeddings d).activate k = .error .keyNotFound)
    ∧ (∀ k e r2, List.lookup k d = some e →
        (mkPluggableEmbeddings d).activate k = .ok r2 →
        r2.forward ops source step = e.forward ops source step) := by
  refine ⟨rfl, ?_, ?_⟩
  · intro k hk
    unfold PluggableEmbeddings.activate
    rw [show (mkPluggableEmbeddings d).modules =
      d.map (fun ke => ("embeddings_" ++ ke.1, ke.2)) from rfl]
    rw [lookup_prefixed d k, hk]
  · intro k e r2 hk hact
    unfold PluggableEmbeddings.activate at hact
    rw [show (mkPluggableEmbeddings d).modules =
      d.map (fun ke => ("embeddings_" ++ ke.1, ke.2)) from rfl] at hact
    rw [lookup_prefixed d k, hk] at hact
    have hr2 : r2 = PluggableEmbeddings.mk
        (d.map (fun ke => ("embeddings_" ++ ke.1, ke.2))) (some k) :=
      (Except.ok.inj hact).symm
    subst hr2
    unfold PluggableEmbeddings.forward PluggableEmbeddings.activeEmbeddings
    simp only
    rw [lookup_prefixed d k, hk]
    rfl

/-- Witness for C1 over the two-key registry `{en, de}`: forward before
activation fails, activating the unknown key `xx` fails, and after
activating `en` the registry forwards exactly as `ew1` does. -/
theorem pluggable_embeddings_spec_witness :
    (List.lookup "xx" d1 = none)
    ∧ (List.lookup "en" d1 = some ew1)
    ∧ ((mkPluggableEmbeddings d1).activate "en" = .ok r2v)
    ∧ ((mkPluggableEmbeddings d1).forward ratOps [[0], [1]] none =
        .error .notActivated)
    ∧ ((mkPluggableEmbeddings d1).activate "xx" = .error .keyNotFound)
    ∧ (r2v.forward ratOps [[0], [1]] none = ew1.forward ratOps [[0], [1]] none) :=
  ⟨by decide, by decide, by decide,
    (pluggable_embeddings_spec ratOps d1 [[0], [1]] none).1,
    (pluggable_embeddings_spec ratOps d1 [[0], [1]] none).2.1 "xx" (by decide),
    (pluggable_embeddings_spec ratOps d1 [[0], [1]] none).2.2 "en" ew1 r2v
      (by decide) (by decide)⟩

/-- C10: a failed `activate` (key not registered) raises the key-not-found
error before the `active_key` assignment, so the registry state is unchanged:
`forward` behaves exactly as before the call — a previously activated
registry keeps forwarding through the old key, and a never-activated registry
still fails `forward` with the not-activated error. -/
theorem activate_failure_preserves_state {K : Type} [LinearOrderedField K]
    (ops : RealOps K) (r : PluggableEmbeddings K) (k : String)
    (hk : List.lookup ("embeddings_" ++ k) r.modules = none) :
    (r.activate k = .error .keyNotFound)
    ∧ (r.activateOrKeep k = r)
    ∧ (∀ source step, (r.activateOrKeep k).forward ops source step =
        r.forward ops source step)
    ∧ (r.active_key = none →
        ∀ source step, (r.activateOrKeep k).forward ops source step =
          .error .notActivated) := by
  have hact : r.activate k = .error .keyNotFound := by
    unfold PluggableEmbeddings.activate
    rw [hk]
  have hkeep : r.activateOrKeep k = r := by
    unfold PluggableEmbeddings.activateOrKeep
    rw [hact]
  refine ⟨hact, hkeep, fun source step => by rw [hkeep], ?_⟩
  intro hnone source step
  rw [hkeep]
  unfold PluggableEmbeddings.forward PluggableEmbeddings.activeEmbeddings
  rw [hnone]
  rfl

/-- Witness for C10: activating the unknown key `xx` on the fresh `{en, de}`
registry leaves it unchanged and `forward` still fails with the
not-activated error. -/
theorem activate_failure_preserves_state_witness :
    (List.lookup ("embeddings_" ++ "xx") (mkPluggableEmbeddings d1).modules = none)
    ∧ (((mkPluggableEmbeddings d1).activate "xx" = .error .keyNotFound)
      ∧ ((mkPluggableEmbeddings d1).activateOrKeep "xx" = mkPluggableEmbeddings d1)
      ∧ (∀ source step,
          ((mkPluggableEmbeddings d1).activateOrKeep "xx").forward ratOps source step =
            (mkPluggableEmbeddings d1).forward ratOps source step)
      ∧ ((mkPluggableEmbeddings d1).active_key = none →
          ∀ source step,
            ((mkPluggableEmbeddings d1).activateOrKeep "xx").forward ratOps source step =
              .error .notActivated)) :=
  ⟨by decide, activate_failure_preserves_state ratOps (mkPluggableEmbeddings d1) "xx"
    (by decide)⟩

/-- The `read_embeddings` loop computes a monadic left fold of `specStep`
over the lines that remain after skipping the first `skip_lines - i` and
truncating at the first empty line, any float failure aborting the fold. -/
theorem readEmbeddingsAux_eq {K : Type} (parse : String → Option K)
    (filter_set : Option (List String)) (skip_lines : ℕ) :
    ∀ (lines : List String) (i : ℕ) (embs : List (String × List K)) (total : ℕ),
      (readEmbeddingsAux parse filter_set skip_lines i lines embs total).map
          (fun p => p.1) =
        ((lines.drop (skip_lines - i)).takeWhile (fun l => l ≠ "")).foldlM
          (specStep parse filter_set lineFields) embs := by
  intro lines
  induction lines with
  | nil =>
    intro i embs total
    simp only [readEmbeddingsAux, List.drop_nil, List.takeWhile_nil, List.foldlM_nil]
    rfl
  | cons line rest ih =>
    intro i embs total
    by_cases hskip : i < skip_lines
    · have hd : (line :: rest).drop (skip_lines - i) =
          rest.drop (skip_lines - (i + 1)) := by
        have h1 : skip_lines - i = (skip_lines - (i + 1)) + 1 := by omega
        rw [h1, List.drop_succ_cons]
      rw [show readEmbeddingsAux parse filter_set skip_lines i (line :: rest) embs total =
        readEmbeddingsAux parse filter_set skip_lines (i + 1) rest embs total from by
          simp only [readEmbeddingsAux]; rw [if_pos hskip]]
      rw [hd, ih]
    · have hzero : skip_lines - i = 0 := by omega
      have hzero1 : skip_lines - (i + 1) = 0 := by omega
      rw [hzero, List.drop_zero]
      by_cases hline : line = ""
      · rw [show readEmbeddingsAux parse filter_set skip_lines i (line :: rest) embs total =
          .ok (embs, total) from by
            simp only [readEmbeddingsAux]; rw [if_neg hskip, if_pos hline]]
        rw [List.takeWhile_cons, if_neg (by simp [hline]), List.foldlM_nil]
        rfl
      · rw [List.takeWhile_cons, if_pos (by simp [hline]), List.foldlM_cons]
        by_cases h2 : (lineFields line).length = 2
        · rw [show readEmbeddingsAux parse filter_set skip_lines i (line :: rest) embs total =
            readEmbeddingsAux parse filter_set skip_lines (i + 1) rest embs total from by
              simp only [readEmbeddingsAux]
              rw [if_neg hskip, if_neg hline, if_pos h2]]
          rw [show specStep parse filter_set lineFields embs line = .ok embs from by
            unfold specStep; rw [if_pos h2]]
          rw [ih, hzero1, List.drop_zero]
          rfl
        · by_cases hex : excludedBy filter_set ((lineFields line).headD "") = true
          · rw [show readEmbeddingsAux parse filter_set skip_lines i (line :: rest) embs total =
              readEmbeddingsAux parse filter_set skip_lines (i + 1) rest embs (total + 1) from by
                simp only [readEmbeddingsAux]
                rw [if_neg hskip, if_neg hline, if_neg h2, if_pos hex]]
            rw [show specStep parse filter_set lineFields embs line = .ok embs from by
              unfold specStep; rw [if_neg h2, if_pos hex]]
            rw [ih, hzero1, List.drop_zero]
            rfl
          · cases hm : (lineFields line).tail.mapM parse with
            | none =>
              rw [show readEmbeddingsAux parse filter_set skip_lines i (line :: rest) embs total =
                .error .valueError from by
                  simp only [readEmbeddingsAux]
                  rw [if_neg hskip, if_neg hline, if_neg h2, if_neg hex, hm]]
              rw [show specStep parse filter_set lineFields embs line =
                .error .valueError from by
                  unfold specStep; rw [if_neg h2, if_neg hex, hm]]
              rfl
            | some vec =>
              rw [show readEmbeddingsAux parse filter_set skip_lines i (line :: rest) embs total =
                readEmbeddingsAux parse filter_set skip_lines (i + 1) rest
                  (upsert ((lineFields line).headD "") vec embs) (total + 1) from by
                  simp only [readEmbeddingsAux]
                  rw [if_neg hskip, if_neg hline, if_neg h2, if_neg hex, hm]]
              rw [show specStep parse filter_set lineFields embs line =
                .ok (upsert ((lineFields line).headD "") vec embs) from by
                  unfold specStep; rw [if_neg h2, if_neg hex, hm]]
              rw [ih, hzero1, List.drop_zero]
              rfl

/-- C9 (amended): `read_embeddings` skips the requested number of leading
lines, stops at an empty line, splits each remaining line on the single space
character, skips every line with exactly 2 fields, and for every remaining
line not excluded by the filter set maps the first field to the remaining
fields parsed as floats — where a malformed field (for example the empty
field produced by a run of spaces) makes the whole read fail with the float
error instead of producing a mapping. -/
theorem read_embeddings_space_split_spec {K : Type} (parse : String → Option K)
    (filter_set : Option (List String)) (skip_lines : ℕ) (lines : List String) :
    (read_embeddings parse filter_set skip_lines lines).map (fun p => p.1) =
      readEmbeddingsSpecSpace parse filter_set skip_lines lines := by
  unfold read_embeddings readEmbeddingsSpecSpace
  rw [readEmbeddingsAux_eq parse filter_set skip_lines lines 0 [] 0]
  rw [Nat.sub_zero]

/-- C9 counterexample: two crash-free divergences from the claimed
whitespace-splitting behavior.  On the tab-separated line `a⟶1.0 2.0` the
source splits on spaces only, sees the 2 fields `a⟶1.0` and `2.0`, and skips
the line as a header, so nothing is mapped — while under whitespace splitting
the line has 3 fields and the claim maps `a` to the parsed vector.  And on
the line `a␣␣1.0␣2.0` (two spaces after the token) the source raises the
float `ValueError` on the empty field instead of mapping the token, while the
claim's whitespace split parses it cleanly. -/
theorem read_embeddings_whitespace_counterexample :
    ((read_embeddings parse0 none 0 ["a\t1.0 2.0"]).map (fun p => p.1) = .ok [])
    ∧ (readEmbeddingsSpecWhitespace parse0 none 0 ["a\t1.0 2.0"] =
        .ok [("a", [0, 0])])
    ∧ ((read_embeddings parse0 none 0 ["a\t1.0 2.0"]).map (fun p => p.1) ≠
        readEmbeddingsSpecWhitespace parse0 none 0 ["a\t1.0 2.0"])
    ∧ ((read_embeddings parseF none 0 ["a  1.0 2.0"]).map (fun p => p.1) =
        .error .valueError)
    ∧ (readEmbeddingsSpecWhitespace parseF none 0 ["a  1.0 2.0"] =
        .ok [("a", [0, 0])])
    ∧ ((read_embeddings parseF none 0 ["a  1.0 2.0"]).map (fun p => p.1) ≠
        readEmbeddingsSpecWhitespace parseF none 0 ["a  1.0 2.0"]) := by
  refine ⟨?_, ?_, ?_, ?_, ?_, ?_⟩ <;> decide

end Mammoth

